import Mathlib

/-!
Verification of the Mini cloud storage server.

This file is a shallow embedding of the server-side protocol engine found in
src/server.c (the POSIX variant, which the repository treats as primary; the
Windows variant differs only where noted in the doc comments).  Network byte
streams and file contents are modeled as lists of characters, the storage
root as a list of directory entries, and each command handler as a pure
function from the pre-state to the emitted response lines and the post-state.
The interleaving of two concurrent UPLOAD handlers is modeled separately as a
small scheduled transition system over a shared file and a shared advisory
lock.
-/

namespace MiniCloud

/-- Bytes on the wire and file contents, modeled as lists of characters. -/
abbrev Bytes := List Char

/-- A filename or path, modeled as a list of characters. -/
abbrev Name := List Char

/-- MAX_LINE from src/server.c:40. -/
def MAX_LINE : Nat := 4096

/-- MAX_PATH from src/server.c:41 (the `char path[MAX_PATH]` buffers). -/
def MAX_PATH : Nat := 1024

/-- The directory entry `"."`. -/
def dotName : Name := ['.']

/-- The directory entry and traversal segment `".."`. -/
def dotdotName : Name := ['.', '.']

/-! Response line texts, written exactly as the `send_line` format strings in
src/server.c (without the trailing newline, which is the line framing). -/

def errBadFilename : List Char := ['E','R','R',' ','b','a','d',' ','f','i','l','e','n','a','m','e']

def errInvalidSize : List Char := ['E','R','R',' ','i','n','v','a','l','i','d',' ','s','i','z','e']

def errCannotOpenWrite : List Char :=
  ['E','R','R',' ','c','a','n','n','o','t',' ','o','p','e','n',' ','f','i','l','e',' ','f','o','r',' ','w','r','i','t','e']

def errCannotLockFile : List Char :=
  ['E','R','R',' ','c','a','n','n','o','t',' ','l','o','c','k',' ','f','i','l','e']

def errServerOom : List Char := ['E','R','R',' ','s','e','r','v','e','r',' ','o','o','m']

def errRecvDataFailed : List Char :=
  ['E','R','R',' ','r','e','c','v',' ','d','a','t','a',' ','f','a','i','l','e','d']

def errWriteFailed : List Char := ['E','R','R',' ','w','r','i','t','e',' ','f','a','i','l','e','d']

def errNotFound : List Char := ['E','R','R',' ','n','o','t',' ','f','o','u','n','d']

def errNotAFile : List Char := ['E','R','R',' ','n','o','t',' ','a',' ','f','i','l','e']

def errDeleteFailed : List Char := ['E','R','R',' ','d','e','l','e','t','e',' ','f','a','i','l','e','d']

def errRenameFailed : List Char := ['E','R','R',' ','r','e','n','a','m','e',' ','f','a','i','l','e','d']

def errUnknownCommand : List Char :=
  ['E','R','R',' ','u','n','k','n','o','w','n',' ','c','o','m','m','a','n','d']

def okText : List Char := ['O','K']

def okSaved : List Char := ['O','K',' ','S','A','V','E','D']

def okBye : List Char := ['O','K',' ','B','Y','E']

def okDeleted : List Char := ['O','K',' ','D','E','L','E','T','E','D']

def okRenamed : List Char := ['O','K',' ','R','E','N','A','M','E','D']

/-- The text `"OK "` that precedes a number in `OK %d` / `OK %lld` lines. -/
def okHead : List Char := ['O','K',' ']

/-- The text `"FILE "` that starts each `FILE %s %lld` line of LIST. -/
def fileHead : List Char := ['F','I','L','E',' ']

def endText : List Char := ['E','N','D']

def litLIST : List Char := ['L','I','S','T']

def litUPLOAD : List Char := ['U','P','L','O','A','D']

def litDOWNLOAD : List Char := ['D','O','W','N','L','O','A','D']

def litRENAME : List Char := ['R','E','N','A','M','E']

def litDELETE : List Char := ['D','E','L','E','T','E']

def litQUIT : List Char := ['Q','U','I','T']

/-- Decimal digit character, as produced by printf for `%d` / `%lld`. -/
def digitChar (d : Nat) : Char := Char.ofNat (48 + d % 10)

/-- Fueled accumulator loop for decimal rendering of a natural number. -/
def natCharsAux : Nat → Nat → List Char → List Char
  | 0, _, acc => acc
  | fuel + 1, n, acc =>
    if n < 10 then digitChar n :: acc
    else natCharsAux fuel (n / 10) (digitChar (n % 10) :: acc)

/-- Decimal rendering of a natural number, as printed by `%d` / `%lld` for
nonnegative values. -/
def natChars (n : Nat) : List Char := natCharsAux (n + 1) n []

/-- Path Validator, from `path_join` (src/server.c:130-137): the name is
rejected when it contains the substring `".."` (strstr), the character `'/'`
or the character `'\'` (strchr). -/
def nameBad (name : Name) : Bool :=
  decide (dotdotName <:+: name) || decide ('/' ∈ name) || decide ('\\' ∈ name)

/-- `path_join` (src/server.c:130-137): reject denylisted names, then
`snprintf(out, cap, "%s/%s", dir, name)`; the join succeeds when the formatted
length `r = |dir| + 1 + |name|` satisfies `r > 0 && r < cap` with
`cap = MAX_PATH`. -/
def path_join (dir : Name) (name : Name) : Option (List Char) :=
  if nameBad name then none
  else if 0 < dir.length + 1 + name.length ∧ dir.length + 1 + name.length < MAX_PATH then
    some (dir ++ '/' :: name)
  else none

/-! Path resolution.  To state what a joined path denotes we split it at `'/'`
and fold away `"."`/`".."`/empty segments, the standard POSIX resolution of a
relative path (no symlinks, as the spec's flat-namespace model assumes). -/

/-- Accumulating splitter: cut a character list at every `'/'`. -/
def splitSegsAux : List Char → List Char → List (List Char)
  | [], cur => [cur.reverse]
  | c :: rest, cur =>
    if c = '/' then cur.reverse :: splitSegsAux rest []
    else splitSegsAux rest (c :: cur)

/-- Split a path into its `'/'`-separated segments. -/
def splitSegs (p : List Char) : List (List Char) := splitSegsAux p []

/-- One step of POSIX path resolution: drop empty and `"."` segments, let
`".."` pop the previous segment, and append any other segment. -/
def resolveStep (acc : List (List Char)) (seg : List Char) : List (List Char) :=
  if seg = [] ∨ seg = dotName then acc
  else if seg = dotdotName then acc.dropLast
  else acc ++ [seg]

/-- The sequence of real path segments a path resolves to. -/
def resolvePath (p : List Char) : List (List Char) :=
  (splitSegs p).foldl resolveStep []

/-- `p` resolves to a direct child of `root`: its resolved segment sequence is
the resolution of `root` extended by exactly one further segment. -/
def isDirectChild (root p : List Char) : Bool :=
  decide ((resolvePath p).length = (resolvePath root).length + 1) &&
    decide ((resolvePath p).dropLast = resolvePath root)

/-! The storage root, modeled as a flat list of directory entries. -/

/-- One entry of the storage directory: its name, whether `stat` reports it as
a regular file (`S_ISREG`), and its byte content. -/
structure FSEntry where
  name : Name
  isReg : Bool
  content : Bytes
deriving DecidableEq, Repr

/-- The storage root: the directory entries, in enumeration order. -/
abbrev FS := List FSEntry

/-- Look up a directory entry by name (`stat`/`open` on `root/name`). -/
def statFS (fs : FS) (name : Name) : Option FSEntry :=
  fs.find? (fun e => decide (e.name = name))

/-- Replace the content of every entry called `name` (a write through an open
file descriptor for that name). -/
def setContent (fs : FS) (name : Name) (c : Bytes) : FS :=
  fs.map (fun e => if e.name = name then { e with content := c } else e)

/-- Remove the entry called `name` (`unlink`). -/
def eraseName (fs : FS) (name : Name) : FS :=
  fs.eraseP (fun e => decide (e.name = name))

/-- The byte content stored under `name`, when the entry exists. -/
def readFS (fs : FS) (name : Name) : Option Bytes :=
  (statFS fs name).map (fun e => e.content)

/-- `open(path, O_WRONLY|O_CREAT|O_TRUNC)` (src/server.c:199): creating a new
regular file, or truncating an existing regular file to empty; the open fails
(EISDIR) when the name denotes an existing non-regular entry. -/
def openTrunc (fs : FS) (name : Name) : Option FS :=
  match statFS fs name with
  | some e => if e.isReg then some (setContent fs name []) else none
  | none => some (fs ++ [⟨name, true, []⟩])

/-- `open(path, O_WRONLY|O_CREAT|O_TRUNC)` would succeed on `name`. -/
def openable (fs : FS) (name : Name) : Bool :=
  match statFS fs name with
  | some e => e.isReg
  | none => true

/-- One response unit sent to the client: a control line (text without the
trailing newline) or a raw binary payload. -/
inductive Resp where
  | line (text : List Char)
  | data (bytes : Bytes)
deriving DecidableEq, Repr

/-- The `OK %d` line of LIST. -/
def okCountLine (n : Nat) : Resp := .line (okHead ++ natChars n)

/-- The `OK %lld` size line of DOWNLOAD. -/
def okSizeLine (n : Nat) : Resp := .line (okHead ++ natChars n)

/-- One `FILE %s %lld` line of LIST. -/
def fileLine (name : Name) (sz : Nat) : Resp :=
  .line (fileHead ++ name ++ ' ' :: natChars sz)

/-- The `END` sentinel line of LIST. -/
def endLine : Resp := .line endText

/-- Environment outcomes for the fallible system calls inside `handle_upload`
that do not depend on the modeled state: whether `fcntl(F_SETLKW)` succeeds
(it can fail with EINTR or EDEADLK, src/server.c:205) and whether the
transfer-buffer `malloc` succeeds (src/server.c:214).  The `write(2)` to the
local storage file is modeled as always succeeding, so the `ERR write failed`
branch of src/server.c:231 is unreachable in the embedding. -/
structure Env where
  lockOk : Bool
  mallocOk : Bool
deriving DecidableEq, Repr

/-- The outcome of `handle_upload`: the lines sent, the storage state after
the call, and the part of the connection's input stream not yet consumed. -/
structure UploadOut where
  resps : List Resp
  fs : FS
  stream : List Char
deriving DecidableEq, Repr

/-- `handle_upload` (src/server.c:188-245).  Checks `size < 0`, then the path
validator, then opens the destination with `O_CREAT|O_TRUNC`, takes the
exclusive write lock, sends `OK`, and receives exactly `size` bytes in
chunks, writing them to the file.  A short stream (peer closed mid-transfer)
has written every received byte before `recv_all` reports failure, so the
file keeps the received prefix and the input stream is fully consumed. -/
def handle_upload (env : Env) (root : Name) (fs : FS) (filename : Name) (size : Int)
    (stream : List Char) : UploadOut :=
  if size < 0 then ⟨[.line errInvalidSize], fs, stream⟩
  else
    match path_join root filename with
    | none => ⟨[.line errBadFilename], fs, stream⟩
    | some _ =>
      match openTrunc fs filename with
      | none => ⟨[.line errCannotOpenWrite], fs, stream⟩
      | some fs1 =>
        if env.lockOk = false then ⟨[.line errCannotLockFile], fs1, stream⟩
        else if env.mallocOk = false then ⟨[.line okText, .line errServerOom], fs1, stream⟩
        else
          let n := size.toNat
          let got := stream.take n
          let fs2 := setContent fs1 filename got
          if got.length = n then ⟨[.line okText, .line okSaved], fs2, stream.drop n⟩
          else ⟨[.line okText, .line errRecvDataFailed], fs2, stream.drop n⟩

/-- `handle_download` (src/server.c:247-304).  Path validator, then
`open(O_RDONLY)` (fails only when the entry is absent; a directory opens
fine), shared lock, `fstat`, `S_ISREG` check, then the `OK %lld` size line
followed by the raw bytes.  The shared-lock and fstat calls are modeled as
succeeding; the storage state is never changed. -/
def handle_download (root : Name) (fs : FS) (filename : Name) : List Resp :=
  match path_join root filename with
  | none => [.line errBadFilename]
  | some _ =>
    match statFS fs filename with
    | none => [.line errNotFound]
    | some e =>
      if e.isReg = false then [.line errNotAFile]
      else [okSizeLine e.content.length, .data e.content]

/-- `handle_rename` (src/server.c:306-333).  Both names pass the path
validator, the source is opened with `O_RDWR` (fails when absent or a
directory, giving `ERR not found`) and write-locked, then `rename(2)` moves
it, silently replacing a regular destination and failing on a directory
destination. -/
def handle_rename (root : Name) (fs : FS) (oldn newn : Name) : List Resp × FS :=
  match path_join root oldn, path_join root newn with
  | some _, some _ =>
    match statFS fs oldn with
    | none => ([.line errNotFound], fs)
    | some e =>
      if e.isReg = false then ([.line errNotFound], fs)
      else
        match statFS fs newn with
        | some d =>
          if d.isReg = false then ([.line errRenameFailed], fs)
          else ([.line okRenamed], eraseName (eraseName fs oldn) newn ++ [⟨newn, true, e.content⟩])
        | none => ([.line okRenamed], eraseName fs oldn ++ [⟨newn, true, e.content⟩])
  | _, _ => ([.line errBadFilename], fs)

/-- `handle_delete` (src/server.c:335-359).  Path validator, then a
best-effort write lock whose failure is ignored, then `unlink(2)`, which
succeeds exactly on an existing regular-file entry. -/
def handle_delete (root : Name) (fs : FS) (filename : Name) : List Resp × FS :=
  match path_join root filename with
  | none => ([.line errBadFilename], fs)
  | some _ =>
    match statFS fs filename with
    | some e =>
      if e.isReg then ([.line okDeleted], eraseName fs filename)
      else ([.line errDeleteFailed], fs)
    | none => ([.line errDeleteFailed], fs)

/-- The names `readdir` enumerates over the storage root: the `"."` and
`".."` entries followed by the real entries in enumeration order. -/
def dirNames (fs : FS) : List Name :=
  dotName :: dotdotName :: fs.map (fun e => e.name)

/-- The second `readdir` pass of `handle_list` (src/server.c:174-182): skip
`"."` and `".."`, re-join each name through `path_join`, `stat` it, and emit
one `FILE %s %lld` line per regular file. -/
def listPass2 (root : Name) (fs : FS) : List Name → List Resp
  | [] => []
  | n :: rest =>
    if n = dotName ∨ n = dotdotName then listPass2 root fs rest
    else
      match path_join root n with
      | none => listPass2 root fs rest
      | some _ =>
        match statFS fs n with
        | some e =>
          if e.isReg then fileLine n e.content.length :: listPass2 root fs rest
          else listPass2 root fs rest
        | none => listPass2 root fs rest

/-- `handle_list` (src/server.c:159-186).  First pass counts every dirent
other than `"."` and `".."` (regular or not); then `OK %d`, the FILE lines of
the second pass, and `END`.  The `opendir` failure branch (unreadable root)
is not modeled; the storage root is assumed readable. -/
def handle_list (root : Name) (fs : FS) : List Resp :=
  okCountLine ((dirNames fs).filter
      (fun n => !decide (n = dotName) && !decide (n = dotdotName))).length ::
    listPass2 root fs (dirNames fs) ++ [endLine]

/-! The line codec. -/

/-- The scanning loop of `recv_line` (src/server.c:93-112): read one byte at
a time while `i + 1 < cap`, stopping after a newline (kept in the buffer) or
at end of stream.  `budget` is the remaining `cap - 1 - i`; `acc` holds the
bytes read so far, reversed. -/
def recv_line_aux : Nat → List Char → List Char → List Char × List Char
  | 0, s, acc => (acc.reverse, s)
  | _ + 1, [], acc => (acc.reverse, [])
  | budget + 1, c :: rest, acc =>
    if c = '\n' then ((c :: acc).reverse, rest)
    else recv_line_aux budget rest (c :: acc)

/-- `recv_line` (src/server.c:93-112): `none` models the return value 0 (peer
closed before any byte); otherwise the bytes read (at most `cap - 1`,
including a final newline when one was found) and the unconsumed stream. -/
def recv_line (cap : Nat) (s : List Char) : Option (List Char × List Char) :=
  match s with
  | [] => none
  | _ => some (recv_line_aux (cap - 1) s [])

/-- `chomp` (src/server.c:123-128): strip trailing `'\n'` and `'\r'`. -/
def chomp (s : List Char) : List Char :=
  (s.reverse.dropWhile (fun c => c = '\n' ∨ c = '\r')).reverse

/-! The command parser: a model of the `sscanf` calls in `client_thread`
(src/server.c:383-404). -/

/-- The characters `isspace` accepts in the C locale, which both a format
blank and `%s` skip. -/
def isWsChar (c : Char) : Bool :=
  c = ' ' || c = '\t' || c = '\n' || c = '\x0b' || c = '\x0c' || c = '\r'

/-- ASCII decimal digit test. -/
def isDigitChar (c : Char) : Bool := '0' ≤ c && c ≤ '9'

/-- Literal text at the start of an sscanf format: it must match exactly. -/
def matchLit (lit s : List Char) : Option (List Char) :=
  if lit <+: s then some (s.drop lit.length) else none

/-- An sscanf `%1023s` conversion: skip whitespace, then read at most 1023
non-whitespace characters; fail when no character is read. -/
def scanToken (s : List Char) : Option (Name × List Char) :=
  let s1 := s.dropWhile isWsChar
  let tok := (s1.takeWhile (fun c => !isWsChar c)).take 1023
  if tok = [] then none else some (tok, s1.drop tok.length)

/-- The numeric value of a digit string. -/
def digitsVal (l : List Char) : Nat :=
  l.foldl (fun acc c => acc * 10 + (c.toNat - 48)) 0

/-- An sscanf `%lld` conversion: skip whitespace, an optional sign, then at
least one digit. -/
def scanLLD (s : List Char) : Option (Int × List Char) :=
  let s1 := s.dropWhile isWsChar
  match s1 with
  | '-' :: r =>
    let ds := r.takeWhile isDigitChar
    if ds = [] then none else some (-(digitsVal ds : Int), r.drop ds.length)
  | '+' :: r =>
    let ds := r.takeWhile isDigitChar
    if ds = [] then none else some ((digitsVal ds : Int), r.drop ds.length)
  | _ =>
    let ds := s1.takeWhile isDigitChar
    if ds = [] then none else some ((digitsVal ds : Int), s1.drop ds.length)

/-- `sscanf(line, "UPLOAD %1023s %lld", a1, &size) == 2`. -/
def scanUpload (line : List Char) : Option (Name × Int) :=
  (matchLit litUPLOAD line).bind fun r =>
    (scanToken r).bind fun p =>
      (scanLLD p.2).map fun q => (p.1, q.1)

/-- `sscanf(line, "DOWNLOAD %1023s", a1) == 1`. -/
def scanDownload (line : List Char) : Option Name :=
  (matchLit litDOWNLOAD line).bind fun r => (scanToken r).map fun p => p.1

/-- `sscanf(line, "RENAME %1023s %1023s", a1, a2) == 2`. -/
def scanRename (line : List Char) : Option (Name × Name) :=
  (matchLit litRENAME line).bind fun r =>
    (scanToken r).bind fun p =>
      (scanToken p.2).map fun q => (p.1, q.1)

/-- `sscanf(line, "DELETE %1023s", a1) == 1`. -/
def scanDelete (line : List Char) : Option Name :=
  (matchLit litDELETE line).bind fun r => (scanToken r).map fun p => p.1

/-- A parsed command line. -/
inductive Cmd where
  | list
  | upload (name : Name) (size : Int)
  | download (name : Name)
  | rename (oldn newn : Name)
  | delete (name : Name)
  | quit
  | unknown
deriving DecidableEq, Repr

/-- The first-match dispatch chain of `client_thread` (src/server.c:383-404).
The LIST test `sscanf(line, "LIST") == 0 && strncmp(line, "LIST", 4) == 0`
reduces on a nonempty line to the `strncmp` prefix test, and the QUIT test is
`strncmp(line, "QUIT", 4) == 0`; both are prefix tests, not exact-token
matches. -/
def parse_command (line : List Char) : Cmd :=
  if litLIST <+: line then .list
  else
    match scanUpload line with
    | some p => .upload p.1 p.2
    | none =>
      match scanDownload line with
      | some n => .download n
      | none =>
        match scanRename line with
        | some p => .rename p.1 p.2
        | none =>
          match scanDelete line with
          | some n => .delete n
          | none => if litQUIT <+: line then .quit else .unknown

/-- The connection handler's state after processing one line: still in the
command loop, or out of it (`break`, after which the socket is closed). -/
inductive Mode where
  | ready
  | closed
deriving DecidableEq, Repr

/-- The observable outcome of one iteration of the command loop. -/
structure StepOut where
  resps : List Resp
  fs : FS
  stream : List Char
  mode : Mode
deriving DecidableEq, Repr

/-- Process one chomped command line (the body of the `for` loop in
`client_thread` after `recv_line`/`chomp`, src/server.c:373-404): an empty
line is skipped, QUIT answers `OK BYE` and leaves the loop, anything
unrecognized answers `ERR unknown command`, and every handler return value is
discarded, so the loop always continues after a handler runs. -/
def dispatchLine (env : Env) (root : Name) (fs : FS) (line : List Char)
    (rest : List Char) : StepOut :=
  if line = [] then ⟨[], fs, rest, .ready⟩
  else
    match parse_command line with
    | .list => ⟨handle_list root fs, fs, rest, .ready⟩
    | .upload n sz =>
      let u := handle_upload env root fs n sz rest
      ⟨u.resps, u.fs, u.stream, .ready⟩
    | .download n => ⟨handle_download root fs n, fs, rest, .ready⟩
    | .rename o n => ⟨(handle_rename root fs o n).1, (handle_rename root fs o n).2, rest, .ready⟩
    | .delete n => ⟨(handle_delete root fs n).1, (handle_delete root fs n).2, rest, .ready⟩
    | .quit => ⟨[.line okBye], fs, rest, .closed⟩
    | .unknown => ⟨[.line errUnknownCommand], fs, rest, .ready⟩

/-- One iteration of the command loop from the READY state
(src/server.c:370-405): read a line (end of stream leaves the loop with no
response), chomp it, and dispatch it. -/
def stepReady (env : Env) (root : Name) (fs : FS) (stream : List Char) : StepOut :=
  match recv_line MAX_LINE stream with
  | none => ⟨[], fs, stream, .closed⟩
  | some (raw, rest) => dispatchLine env root fs (chomp raw) rest

/-! Two concurrent UPLOADs of the same name (src/server.c:188-245 run on two
threads against one file).  Each handler performs, in program order:
`open(O_CREAT|O_TRUNC)` (truncates immediately, before the lock),
`fcntl(F_SETLKW, F_WRLCK)` (blocks until the advisory lock is free),
a `write` per received chunk at its own descriptor offset, and
`fcntl(F_UNLCK)`.  `write` is not gated by the advisory lock (fcntl locks
only serialize other lock requests), and a write past end of file fills the
gap with NUL bytes. -/

/-- One file operation of an upload handler. -/
inductive UAct where
  | uopen
  | ulock
  | uwrite (bs : Bytes)
  | uunlock
deriving DecidableEq, Repr

/-- The file operations of one `handle_upload` run whose received payload
arrives as the given chunks. -/
def uploadProg (chunks : List Bytes) : List UAct :=
  .uopen :: .ulock :: chunks.map .uwrite ++ [.uunlock]

/-- The NUL byte with which a write past end of file fills the gap. -/
def nulChar : Char := Char.ofNat 0

/-- `write(fd, bs, n)` at descriptor offset `off` on a file holding `f`:
overwrite from `off`, zero-filling when `off` is past the end. -/
def writeAt (f : Bytes) (off : Nat) (bs : Bytes) : Bytes :=
  f.take off ++ List.replicate (off - f.length) nulChar ++ bs ++ f.drop (off + bs.length)

/-- The shared state of the two-upload interleaving: the on-disk file, the
advisory lock holder (`false` = first connection, `true` = second), and each
thread's program counter and descriptor offset. -/
structure UpSys where
  file : Bytes
  holder : Option Bool
  pcA : Nat
  pcB : Nat
  offA : Nat
  offB : Nat
deriving DecidableEq, Repr

/-- The initial state: file content `f0` on disk, lock free, neither upload
started. -/
def upInit (f0 : Bytes) : UpSys :=
  ⟨f0, none, 0, 0, 0, 0⟩

/-- One scheduler step: thread `t` (`false` = first upload with chunks `cA`,
`true` = second with `cB`) executes its next file operation; a blocked
`F_SETLKW` leaves the state unchanged, and a finished thread has no effect. -/
def upStep (cA cB : List Bytes) (s : UpSys) (t : Bool) : UpSys :=
  match t with
  | true =>
    match (uploadProg cB)[s.pcB]? with
    | none => s
    | some .uopen => { s with file := [], pcB := s.pcB + 1 }
    | some .ulock =>
      if s.holder = none then { s with holder := some true, pcB := s.pcB + 1 } else s
    | some (.uwrite bs) =>
      { s with file := writeAt s.file s.offB bs, offB := s.offB + bs.length, pcB := s.pcB + 1 }
    | some .uunlock =>
      { s with holder := if s.holder = some true then none else s.holder, pcB := s.pcB + 1 }
  | false =>
    match (uploadProg cA)[s.pcA]? with
    | none => s
    | some .uopen => { s with file := [], pcA := s.pcA + 1 }
    | some .ulock =>
      if s.holder = none then { s with holder := some false, pcA := s.pcA + 1 } else s
    | some (.uwrite bs) =>
      { s with file := writeAt s.file s.offA bs, offA := s.offA + bs.length, pcA := s.pcA + 1 }
    | some .uunlock =>
      { s with holder := if s.holder = some false then none else s.holder, pcA := s.pcA + 1 }

/-- Run a schedule (the sequence of thread choices) from a state. -/
def upRun (cA cB : List Bytes) (s : UpSys) : List Bool → UpSys
  | [] => s
  | t :: ts => upRun cA cB (upStep cA cB s t) ts

/-- A thread whose program has `k` chunks is inside its lock-protected
critical section exactly when it has executed `uopen` and `ulock` but not yet
`uunlock`: program counter in `[2, k + 2]`. -/
def inCrit (chunks : List Bytes) (pc : Nat) : Bool :=
  decide (2 ≤ pc) && decide (pc < chunks.length + 3)

/-- Both uploads hold their critical section at once — the situation the
exclusive write lock must rule out. -/
def bothCrit (cA cB : List Bytes) (s : UpSys) : Bool :=
  inCrit cA s.pcA && inCrit cB s.pcB

/-- The run visits no state (initial, intermediate, or final) in which both
uploads are inside their critical sections. -/
def exclusionOk (cA cB : List Bytes) (s : UpSys) : List Bool → Bool
  | [] => !bothCrit cA cB s
  | t :: ts => !bothCrit cA cB s && exclusionOk cA cB (upStep cA cB s t) ts

/-- Both uploads have executed their whole programs. -/
def upDone (cA cB : List Bytes) (s : UpSys) : Bool :=
  decide (s.pcA = cA.length + 3) && decide (s.pcB = cB.length + 3)

/-- The lock-discipline invariant of the two-upload system: a thread is
inside its critical section exactly when it holds the advisory lock. -/
def upInv (cA cB : List Bytes) (s : UpSys) : Prop :=
  (inCrit cA s.pcA = true → s.holder = some false) ∧
  (inCrit cB s.pcB = true → s.holder = some true) ∧
  (s.holder = some false → inCrit cA s.pcA = true) ∧
  (s.holder = some true → inCrit cB s.pcB = true)

/-- The error-line texts the spec's UPLOAD row lists. -/
def allowedUploadErrsSpec : List (List Char) :=
  [errInvalidSize, errBadFilename, errCannotOpenWrite, errRecvDataFailed, errWriteFailed]

/-- The error-line texts `handle_upload` can actually send: the spec's five
plus the lock-failure and malloc-failure messages of src/server.c:207,217. -/
def allowedUploadErrsCode : List (List Char) :=
  allowedUploadErrsSpec ++ [errCannotLockFile, errServerOom]

/-- The text `"ERR "` that starts every error line. -/
def errHead : List Char := ['E','R','R',' ']

/-- A response that is a `FILE %s %lld` line of LIST. -/
def isFileLine (r : Resp) : Bool :=
  match r with
  | .line s => fileHead.isPrefixOf s
  | .data _ => false

/-! Concrete fixtures used by counterexamples and witnesses. -/

/-- A storage-root path, `"storage"`. -/
def rootS : Name := ['s','t','o','r','a','g','e']

/-- The environment in which every fallible system call succeeds. -/
def envOK : Env := ⟨true, true⟩

/-- First upload's payload, received as two 2-byte chunks of `'A'`s. -/
def cA0 : List Bytes := [['A','A'], ['A','A']]

/-- Second upload's payload, received as one 1-byte chunk `"B"`. -/
def cB0 : List Bytes := [['B']]

/-- A schedule interleaving the two uploads: the first opens, locks and
writes one chunk; the second opens (truncating the file mid-write); the
first finishes and unlocks; the second locks, writes and unlocks. -/
def sched0 : List Bool := [false, false, false, true, false, false, true, true, true]

/-- An input stream whose first line declares `UPLOAD f 5` but whose peer
closed after sending only 3 payload bytes. -/
def c3stream : List Char :=
  ['U','P','L','O','A','D',' ','f',' ','5','\n','a','b','c']

/-- An input stream whose first control line is longer than `MAX_LINE - 1`
bytes: 4096 copies of `'a'` before the newline. -/
def c10stream : List Char := List.replicate 4096 'a' ++ ['\n']

/-! Helper lemmas. -/

/-- While no newline is in reach, `recv_line_aux` reads exactly
`min budget |s|` bytes and leaves the rest of the stream unread. -/
theorem recv_line_aux_no_newline (budget : Nat) (s acc : List Char)
    (h : ∀ c ∈ s.take budget, c ≠ '\n') :
    recv_line_aux budget s acc = (acc.reverse ++ s.take budget, s.drop budget) := by
  induction budget generalizing s acc with
  | zero => simp [recv_line_aux]
  | succ b ih =>
    cases s with
    | nil => simp [recv_line_aux]
    | cons c rest =>
      have hc : c ≠ '\n' := h c (by simp)
      simp only [recv_line_aux, if_neg hc]
      rw [ih rest (c :: acc) (fun x hx => h x (by simp [hx]))]
      simp

/-- `recv_line` reports peer shutdown exactly on the empty stream. -/
theorem recv_line_eq_none_iff (cap : Nat) (s : List Char) :
    recv_line cap s = none ↔ s = [] := by
  cases s <;> simp [recv_line]

/-- Two control lines with different first characters are different. -/
theorem line_ne_of_head {a b : Char} (t1 t2 : List Char) (h : a ≠ b) :
    Resp.line (a :: t1) ≠ Resp.line (b :: t2) := by
  intro hEq
  exact h (List.cons.injEq .. ▸ (Resp.line.injEq .. ▸ hEq)).1

/-! C9. -/

/-- C9: verb recognition for LIST and QUIT is prefix-based, not exact-token:
every control line whose first four characters are `"LIST"` is dispatched as
a LIST command, and every line whose first four characters are `"QUIT"`
parses as QUIT and is answered with `OK BYE` followed by leaving the command
loop (closing the connection), instead of being rejected as unknown. -/
theorem C9_prefix_verb_dispatch :
    (∀ line : List Char, litLIST <+: line → parse_command line = .list) ∧
    (∀ (env : Env) (root : Name) (fs : FS) (line rest : List Char), litQUIT <+: line →
      parse_command line = .quit ∧
        dispatchLine env root fs line rest = ⟨[.line okBye], fs, rest, .closed⟩) := by
  constructor
  · intro line h
    simp [parse_command, h]
  · intro env root fs line rest h
    obtain ⟨t, rfl⟩ := h
    have hq : parse_command (litQUIT ++ t) = .quit := by
      simp [parse_command, litQUIT, litLIST, litUPLOAD, litDOWNLOAD, litRENAME, litDELETE,
        scanUpload, scanDownload, scanRename, scanDelete, matchLit, List.cons_prefix_cons,
        List.cons_append, List.prefix_append]
    refine ⟨hq, ?_⟩
    have hne : litQUIT ++ t ≠ [] := by simp [litQUIT]
    simp [dispatchLine, hq, hne]

/-- Witness for C9 at the concrete lines `"LISTED x"` and `"QUITTING"`. -/
theorem C9_prefix_verb_dispatch_witness :
    parse_command ['L','I','S','T','E','D',' ','x'] = .list ∧
    parse_command ['Q','U','I','T','T','I','N','G'] = .quit ∧
    dispatchLine envOK rootS [] ['Q','U','I','T','T','I','N','G'] [] =
      ⟨[.line okBye], [], [], .closed⟩ := by
  refine ⟨C9_prefix_verb_dispatch.1 _ (by decide), ?_, ?_⟩
  · exact (C9_prefix_verb_dispatch.2 envOK rootS [] _ [] (by decide)).1
  · exact (C9_prefix_verb_dispatch.2 envOK rootS [] _ [] (by decide)).2

/-! C10. -/

/-- C10: when the incoming control line is longer than `MAX_LINE - 1 = 4095`
bytes (no newline among the first 4095 stream bytes), `recv_line` stops after
exactly 4095 bytes without consuming the terminating newline, the command is
interpreted from that 4095-byte prefix, and the remaining bytes of the line
stay in the stream to be read later as the start of the next command line;
no line is rejected for being too long. -/
theorem C10_overlong_line_split (stream : List Char)
    (hnl : ∀ c ∈ stream.take (MAX_LINE - 1), c ≠ '\n')
    (hlen : MAX_LINE - 1 ≤ stream.length) :
    recv_line MAX_LINE stream =
      some (stream.take (MAX_LINE - 1), stream.drop (MAX_LINE - 1)) ∧
    (stream.take (MAX_LINE - 1)).length = MAX_LINE - 1 ∧
    (∀ (env : Env) (root : Name) (fs : FS),
      stepReady env root fs stream =
        dispatchLine env root fs (chomp (stream.take (MAX_LINE - 1)))
          (stream.drop (MAX_LINE - 1))) := by
  have hrecv : recv_line MAX_LINE stream =
      some (stream.take (MAX_LINE - 1), stream.drop (MAX_LINE - 1)) := by
    cases stream with
    | nil => simp [MAX_LINE] at hlen
    | cons c rest =>
      show some (recv_line_aux (MAX_LINE - 1) (c :: rest) []) = _
      rw [recv_line_aux_no_newline _ _ _ hnl]
      simp
  refine ⟨hrecv, ?_, ?_⟩
  · simp [List.length_take, Nat.min_eq_left hlen]
  · intro env root fs
    simp [stepReady, hrecv]

/-- Witness for C10 at a concrete 4096-byte line: the reader returns the
4095-byte prefix and leaves the final `'a'` and the newline in the stream. -/
theorem C10_overlong_line_split_witness :
    recv_line MAX_LINE c10stream =
      some (c10stream.take (MAX_LINE - 1), c10stream.drop (MAX_LINE - 1)) ∧
    (c10stream.take (MAX_LINE - 1)).length = MAX_LINE - 1 := by
  have htake : c10stream.take (MAX_LINE - 1) = List.replicate 4095 'a' := by
    show (List.replicate 4096 'a' ++ ['\n']).take 4095 = _
    rw [List.take_append_of_le_length (by rw [List.length_replicate]; norm_num),
      List.take_replicate, Nat.min_eq_left (by norm_num)]
  have h1 : ∀ c ∈ c10stream.take (MAX_LINE - 1), c ≠ '\n' := by
    intro c hc
    rw [htake] at hc
    rw [(List.mem_replicate.mp hc).2]
    decide
  have h2 : MAX_LINE - 1 ≤ c10stream.length := by
    show 4095 ≤ (List.replicate 4096 'a' ++ ['\n']).length
    rw [List.length_append, List.length_replicate]
    norm_num
  exact ⟨(C10_overlong_line_split c10stream h1 h2).1,
    (C10_overlong_line_split c10stream h1 h2).2.1⟩

/-! C7. -/

/-- C7 counterexample: the four-byte stream `"QUIT"` that ends without a
newline is not reported as an error — `recv_line` returns it as a valid
4-byte line, and the command loop then dispatches it as a QUIT command and
answers `OK BYE`. -/
theorem C7_counterexample :
    recv_line MAX_LINE ['Q','U','I','T'] = some (['Q','U','I','T'], []) ∧
    stepReady envOK rootS [] ['Q','U','I','T'] =
      ⟨[.line okBye], [], [], .closed⟩ := by decide

/-- C7 as amended: a zero-length read before any byte is consumed signals
peer shutdown (`recv_line` returns `none`), but a read that reaches end of
stream after at least one byte with no trailing newline is NOT an error: the
bytes read so far are delivered as a valid control line (return value `i`,
the positive byte count, src/server.c:103-105), which the dispatcher then
interprets as a command. -/
theorem C7_truncated_line_delivered :
    recv_line MAX_LINE [] = none ∧
    (∀ s : List Char, s ≠ [] → (∀ c ∈ s, c ≠ '\n') → s.length ≤ MAX_LINE - 1 →
      recv_line MAX_LINE s = some (s, [])) := by
  refine ⟨rfl, ?_⟩
  intro s hne hnl hlen
  cases s with
  | nil => exact absurd rfl hne
  | cons c rest =>
    show some (recv_line_aux (MAX_LINE - 1) (c :: rest) []) = _
    rw [recv_line_aux_no_newline _ _ _ (fun x hx => hnl x (List.mem_of_mem_take hx))]
    rw [List.take_of_length_le hlen, List.drop_eq_nil_of_le hlen]
    simp

/-- Witness for C7 (amended) at the concrete truncated line `"DEL"`. -/
theorem C7_truncated_line_delivered_witness :
    recv_line MAX_LINE ['D','E','L'] = some (['D','E','L'], []) :=
  C7_truncated_line_delivered.2 _ (by decide) (by decide) (by decide)

/-! Lemmas about directory lookups. -/

/-- Unlinking `name` from a directory with distinct entry names removes it. -/
theorem statFS_eraseName_of_nodup (fs : FS) (name : Name)
    (hnd : (fs.map (fun e => e.name)).Nodup) :
    statFS (eraseName fs name) name = none := by
  induction fs with
  | nil => rfl
  | cons e rest ih =>
    by_cases he : e.name = name
    · rw [eraseName, List.eraseP_cons_of_pos (by simp [he])]
      apply List.find?_eq_none.mpr
      intro x hx
      simp only [decide_eq_true_eq]
      intro hxn
      have hmem : e.name ∈ rest.map (fun e => e.name) := by
        rw [he, ← hxn]
        exact List.mem_map_of_mem _ hx
      exact (List.nodup_cons.mp hnd).1 hmem
    · rw [eraseName, List.eraseP_cons_of_neg (by simp [he])]
      show List.find? _ (e :: _) = none
      rw [List.find?_cons_of_neg _ (by simp [he])]
      exact ih (List.nodup_cons.mp hnd).2

/-- Unfolding a directory lookup over a cons cell. -/
theorem statFS_cons (e : FSEntry) (rest : FS) (name : Name) :
    statFS (e :: rest) name = if e.name = name then some e else statFS rest name := by
  by_cases he : e.name = name <;> simp [statFS, List.find?, he]

/-- Writing content `c` through a descriptor for `name` changes exactly the
looked-up content. -/
theorem statFS_setContent (fs : FS) (name : Name) (c : Bytes) :
    statFS (setContent fs name c) name =
      (statFS fs name).map (fun e => { e with content := c }) := by
  induction fs with
  | nil => rfl
  | cons e rest ih =>
    simp only [setContent, List.map_cons] at ih ⊢
    by_cases he : e.name = name
    · rw [if_pos he, statFS_cons, statFS_cons]
      simp [he]
    · rw [if_neg he, statFS_cons, statFS_cons]
      simp [he, ih]

/-- `O_CREAT` of a fresh name appends an entry that lookups then find. -/
theorem statFS_append_new (fs : FS) (name : Name) (b : Bool) (c : Bytes)
    (h : statFS fs name = none) :
    statFS (fs ++ [⟨name, b, c⟩]) name = some ⟨name, b, c⟩ := by
  induction fs with
  | nil => simp [statFS, List.find?]
  | cons e rest ih =>
    rw [statFS_cons] at h
    rw [List.cons_append, statFS_cons]
    by_cases he : e.name = name
    · rw [if_pos he] at h
      exact absurd h (by simp)
    · rw [if_neg he] at h ⊢
      exact ih h

/-! C8. -/

/-- C8: DELETE of a validated filename that has no entry in the storage root
replies `ERR delete failed` and leaves the storage unchanged; and DELETE is
not idempotent — after a successful DELETE of a regular file, repeating the
same DELETE fails with `ERR delete failed`. -/
theorem C8_delete_not_idempotent :
    (∀ (root : Name) (fs : FS) (name p : Name),
      path_join root name = some p → statFS fs name = none →
      handle_delete root fs name = ([.line errDeleteFailed], fs)) ∧
    (∀ (root : Name) (fs : FS) (name p : Name) (e : FSEntry),
      path_join root name = some p → statFS fs name = some e → e.isReg = true →
      (fs.map (fun x => x.name)).Nodup →
      handle_delete root fs name = ([.line okDeleted], eraseName fs name) ∧
      handle_delete root (eraseName fs name) name =
        ([.line errDeleteFailed], eraseName fs name)) := by
  constructor
  · intro root fs name p hj hs
    simp [handle_delete, hj, hs]
  · intro root fs name p e hj hs hreg hnd
    refine ⟨by simp [handle_delete, hj, hs, hreg], ?_⟩
    simp [handle_delete, hj, statFS_eraseName_of_nodup fs name hnd]

/-- Witness for C8: deleting `"f"` from an empty root fails; after deleting
the sole entry `"f"`, deleting it again fails. -/
theorem C8_delete_not_idempotent_witness :
    handle_delete rootS [] ['f'] = ([.line errDeleteFailed], ([] : FS)) ∧
    handle_delete rootS [⟨['f'], true, ['x']⟩] ['f'] =
      ([.line okDeleted], eraseName [⟨['f'], true, ['x']⟩] ['f']) ∧
    handle_delete rootS (eraseName [⟨['f'], true, ['x']⟩] ['f']) ['f'] =
      ([.line errDeleteFailed], eraseName [⟨['f'], true, ['x']⟩] ['f']) := by
  refine ⟨C8_delete_not_idempotent.1 rootS [] ['f'] (rootS ++ '/' :: ['f']) (by decide) rfl,
    ?_, ?_⟩
  · exact (C8_delete_not_idempotent.2 rootS _ ['f'] (rootS ++ '/' :: ['f'])
      ⟨['f'], true, ['x']⟩ (by decide) (by decide) rfl (by decide)).1
  · exact (C8_delete_not_idempotent.2 rootS _ ['f'] (rootS ++ '/' :: ['f'])
      ⟨['f'], true, ['x']⟩ (by decide) (by decide) rfl (by decide)).2

/-! C5. -/

/-- C5 counterexample: when the `fcntl(F_SETLKW)` call fails, UPLOAD replies
`ERR cannot lock file` (src/server.c:207) — an error line outside the
claim's five-element set. -/
theorem C5_counterexample :
    (handle_upload ⟨false, true⟩ rootS [] ['f'] 0 []).resps = [.line errCannotLockFile] ∧
    errHead <+: errCannotLockFile ∧
    errCannotLockFile ∉ allowedUploadErrsSpec := by decide

/-- C5 as amended: every error line an UPLOAD execution can emit is one of
`ERR invalid size`, `ERR bad filename`, `ERR cannot open file for write`,
`ERR recv data failed`, `ERR write failed`, `ERR cannot lock file`, or
`ERR server oom` (the last two are missing from the spec's table). -/
theorem C5_upload_error_lines (env : Env) (root : Name) (fs : FS) (name : Name)
    (size : Int) (stream : List Char) :
    ((handle_upload env root fs name size stream).resps.all fun r =>
      match r with
      | .line s => !errHead.isPrefixOf s || allowedUploadErrsCode.contains s
      | .data _ => true) = true := by
  simp only [handle_upload]
  repeat' split
  all_goals dsimp only
  all_goals decide

/-! C6. -/

/-- C6 counterexample: an UPLOAD to the existing name `"f"` (content
`"OLD"`) that fails before the open — here with `ERR invalid size` — leaves
the file holding its pre-existing content, not a prefix of the new payload. -/
theorem C6_counterexample :
    (handle_upload envOK rootS [⟨['f'], true, ['O','L','D']⟩] ['f'] (-1) []).resps =
      [.line errInvalidSize] ∧
    readFS (handle_upload envOK rootS [⟨['f'], true, ['O','L','D']⟩] ['f'] (-1) []).fs ['f'] =
      some ['O','L','D'] := by decide

/-- C6 as amended: for every UPLOAD whose size is nonnegative, whose name
passes the validator and whose destination can be opened, the pre-existing
content is discarded by the `O_TRUNC` open: afterwards the file holds a
prefix of the new payload (the received bytes), and on `OK SAVED` it holds
exactly the `size` new bytes.  Failures before the open (invalid size, bad
filename, unopenable destination) leave the pre-existing content in place. -/
theorem C6_truncate_on_open (env : Env) (root : Name) (fs : FS) (name : Name)
    (size : Int) (stream : List Char) (p : List Char)
    (hsz : 0 ≤ size) (hjoin : path_join root name = some p)
    (hopen : openable fs name = true) :
    ∃ c, readFS (handle_upload env root fs name size stream).fs name = some c ∧
      c <+: stream.take size.toNat ∧
      (Resp.line okSaved ∈ (handle_upload env root fs name size stream).resps →
        c = stream.take size.toNat ∧ c.length = size.toNat) := by
  have hslt : ¬ size < 0 := not_lt.mpr hsz
  obtain ⟨fs1, hfs1, e1, hstat1, hc1⟩ :
      ∃ fs1, openTrunc fs name = some fs1 ∧
        ∃ e1, statFS fs1 name = some e1 ∧ e1.content = [] := by
    cases hstat : statFS fs name with
    | none =>
      exact ⟨fs ++ [⟨name, true, []⟩], by simp [openTrunc, hstat],
        ⟨name, true, []⟩, statFS_append_new fs name true [] hstat, rfl⟩
    | some e =>
      have hreg : e.isReg = true := by simpa [openable, hstat] using hopen
      refine ⟨setContent fs name [], by simp [openTrunc, hstat, hreg], ?_⟩
      rw [statFS_setContent, hstat]
      exact ⟨_, rfl, rfl⟩
  simp only [handle_upload, if_neg hslt, hjoin, hfs1]
  by_cases henv1 : env.lockOk = false
  · simp only [if_pos henv1]
    exact ⟨[], by simp [readFS, hstat1, hc1], List.nil_prefix,
      fun hmem => absurd hmem (by decide)⟩
  · simp only [if_neg henv1]
    by_cases henv2 : env.mallocOk = false
    · simp only [if_pos henv2]
      exact ⟨[], by simp [readFS, hstat1, hc1], List.nil_prefix,
        fun hmem => absurd hmem (by decide)⟩
    · simp only [if_neg henv2]
      have hread2 : readFS (setContent fs1 name (stream.take size.toNat)) name =
          some (stream.take size.toNat) := by
        simp [readFS, statFS_setContent, hstat1]
      by_cases hgot : (stream.take size.toNat).length = size.toNat
      · simp only [if_pos hgot]
        exact ⟨stream.take size.toNat, hread2, List.prefix_refl _,
          fun _ => ⟨rfl, hgot⟩⟩
      · simp only [if_neg hgot]
        exact ⟨stream.take size.toNat, hread2, List.prefix_refl _,
          fun hmem => absurd hmem (by decide)⟩

/-! C4. -/

/-- A lookup finds each member of a directory whose names are distinct. -/
theorem statFS_of_mem_nodup (fs : FS) (e : FSEntry)
    (hnd : (fs.map (fun x => x.name)).Nodup) (he : e ∈ fs) :
    statFS fs e.name = some e := by
  induction fs with
  | nil => exact absurd he (List.not_mem_nil e)
  | cons x rest ih =>
    rw [statFS_cons]
    rcases List.mem_cons.mp he with rfl | hmem
    · rw [if_pos rfl]
    · have hx : x.name ≠ e.name := by
        intro hxe
        apply (List.nodup_cons.mp hnd).1
        show x.name ∈ List.map (fun x => x.name) rest
        rw [hxe]
        exact List.mem_map_of_mem _ hmem
      rw [if_neg hx]
      exact ih (List.nodup_cons.mp hnd).2 hmem

/-- The second readdir pass skips the `"."` and `".."` entries. -/
theorem listPass2_cons_skip (root : Name) (fs : FS) (n : Name) (rest : List Name)
    (h : n = dotName ∨ n = dotdotName) :
    listPass2 root fs (n :: rest) = listPass2 root fs rest := by
  simp only [listPass2]
  rw [if_pos h]

/-- The FILE lines the second readdir pass emits over well-formed entries. -/
theorem listPass2_entries (root : Name) (fs : FS) (l : List FSEntry)
    (h : ∀ e ∈ l, e.isReg = true ∧ (path_join root e.name).isSome = true ∧
      e.name ≠ dotName ∧ e.name ≠ dotdotName ∧ statFS fs e.name = some e) :
    listPass2 root fs (l.map (fun e => e.name)) =
      l.map (fun e => fileLine e.name e.content.length) := by
  induction l with
  | nil => rfl
  | cons e rest ih =>
    obtain ⟨hreg, hjoin, hdot, hdotdot, hstat⟩ := h e (List.mem_cons_self e rest)
    obtain ⟨p, hp⟩ := Option.isSome_iff_exists.mp hjoin
    have hrest := ih (fun x hx => h x (List.mem_cons_of_mem e hx))
    simp [listPass2, hp, hstat, hreg, hdot, hdotdot, hrest]

/-- The first readdir pass counts every entry other than `"."`/`".."`. -/
theorem list_count_all (fs : FS)
    (h : ∀ e ∈ fs, e.name ≠ dotName ∧ e.name ≠ dotdotName) :
    ((dirNames fs).filter
      (fun n => !decide (n = dotName) && !decide (n = dotdotName))).length = fs.length := by
  have h1 : (fs.map (fun e => e.name)).filter
      (fun n => !decide (n = dotName) && !decide (n = dotdotName)) =
      fs.map (fun e => e.name) := by
    apply List.filter_eq_self.mpr
    intro n hn
    obtain ⟨e, he, rfl⟩ := List.mem_map.mp hn
    simp [(h e he).1, (h e he).2]
  show ((dotName :: dotdotName :: fs.map (fun e => e.name)).filter _).length = _
  rw [List.filter_cons_of_neg (by decide), List.filter_cons_of_neg (by decide), h1,
    List.length_map]

/-- C4 counterexample: on a storage root holding one subdirectory `"sub"`,
LIST reports `OK 1` (the first pass counts every non-dot dirent) but emits
zero `FILE` lines (the second pass skips non-regular entries), so the count
does not equal the number of FILE lines. -/
theorem C4_counterexample :
    handle_list rootS [⟨['s','u','b'], false, []⟩] = [okCountLine 1, endLine] ∧
    ((handle_list rootS [⟨['s','u','b'], false, []⟩]).filter isFileLine).length = 0 := by
  decide

/-- C4 as amended: the integer in the `OK <count>` line is the number of ALL
directory entries other than `"."` and `".."` (regular or not), while one
`FILE <name> <size>` line is emitted per regular file with a validator-passing
name, each size being the file's byte count.  When every entry is a regular
file with a validator-passing (non-dot) name — in particular on any root
populated solely through UPLOAD — the count equals the number of FILE lines. -/
theorem C4_list_counts (root : Name) (fs : FS)
    (hnd : (fs.map (fun e => e.name)).Nodup)
    (hok : ∀ e ∈ fs, e.isReg = true ∧ (path_join root e.name).isSome = true ∧
      e.name ≠ dotName ∧ e.name ≠ dotdotName) :
    handle_list root fs =
      okCountLine fs.length ::
        fs.map (fun e => fileLine e.name e.content.length) ++ [endLine] ∧
    (fs.map (fun e => fileLine e.name e.content.length)).length = fs.length := by
  refine ⟨?_, by rw [List.length_map]⟩
  have hpass : listPass2 root fs (dirNames fs) =
      fs.map (fun e => fileLine e.name e.content.length) := by
    show listPass2 root fs (dotName :: dotdotName :: fs.map (fun e => e.name)) = _
    rw [listPass2_cons_skip _ _ _ _ (Or.inl rfl), listPass2_cons_skip _ _ _ _ (Or.inr rfl)]
    refine listPass2_entries root fs fs ?_
    intro e he
    exact ⟨(hok e he).1, (hok e he).2.1, (hok e he).2.2.1, (hok e he).2.2.2,
      statFS_of_mem_nodup fs e hnd he⟩
  have hdots : ∀ e ∈ fs, e.name ≠ dotName ∧ e.name ≠ dotdotName := by
    intro e he
    exact ⟨(hok e he).2.2.1, (hok e he).2.2.2⟩
  have hcount := list_count_all fs hdots
  simp only [handle_list, hpass, hcount]

/-- Witness for C4 on a root with the two uploaded files `"a"` (2 bytes) and
`"b"` (0 bytes): `OK 2`, two FILE lines with matching sizes, `END`. -/
theorem C4_list_counts_witness :
    handle_list rootS [⟨['a'], true, ['x','y']⟩, ⟨['b'], true, []⟩] =
      okCountLine 2 :: ([⟨['a'], true, ['x','y']⟩, ⟨['b'], true, []⟩] : FS).map
        (fun e => fileLine e.name e.content.length) ++ [endLine] :=
  (C4_list_counts rootS [⟨['a'], true, ['x','y']⟩, ⟨['b'], true, []⟩]
    (by decide) (by decide)).1

/-! C1. -/

/-- Splitting a slash-free suffix yields a single segment. -/
theorem splitSegsAux_no_slash (l cur : List Char) (h : ∀ c ∈ l, c ≠ '/') :
    splitSegsAux l cur = [cur.reverse ++ l] := by
  induction l generalizing cur with
  | nil => simp [splitSegsAux]
  | cons c rest ih =>
    have hc : c ≠ '/' := h c (by simp)
    simp only [splitSegsAux, if_neg hc]
    rw [ih (c :: cur) (fun x hx => h x (by simp [hx]))]
    simp

/-- Splitting `dir ++ "/" ++ name` for a slash-free `name` appends one
segment to the segments of `dir`. -/
theorem splitSegsAux_append (root name : List Char) (cur : List Char)
    (h : ∀ c ∈ name, c ≠ '/') :
    splitSegsAux (root ++ '/' :: name) cur = splitSegsAux root cur ++ [name] := by
  induction root generalizing cur with
  | nil =>
    simp only [List.nil_append, splitSegsAux, if_pos rfl]
    rw [splitSegsAux_no_slash name [] h]
    simp [splitSegsAux]
  | cons c rest ih =>
    by_cases hc : c = '/'
    · simp only [List.cons_append, splitSegsAux, if_pos hc, List.append_eq]
      rw [ih []]
    · simp only [List.cons_append, splitSegsAux, if_neg hc, List.append_eq]
      rw [ih (c :: cur)]

/-- Resolving `dir ++ "/" ++ name` for a slash-free real segment `name`
appends that segment to the resolution of `dir`. -/
theorem resolvePath_join (root name : List Char) (h : ∀ c ∈ name, c ≠ '/')
    (hne : name ≠ []) (hdot : name ≠ dotName) (hdotdot : name ≠ dotdotName) :
    resolvePath (root ++ '/' :: name) = resolvePath root ++ [name] := by
  rw [resolvePath, splitSegs, splitSegsAux_append root name [] h, List.foldl_concat]
  rw [resolvePath, splitSegs]
  simp only [resolveStep]
  rw [if_neg (by simp [hne, hdot]), if_neg hdotdot]

/-- What a passing `path_join` check guarantees about the name. -/
theorem nameBad_false_facts (name : Name) (h : nameBad name = false) :
    (∀ c ∈ name, c ≠ '/') ∧ name ≠ dotdotName := by
  have h2 : ('/' : Char) ∉ name := by
    intro hc
    simp [nameBad, hc] at h
  have h1 : ¬ (dotdotName <:+: name) := by
    intro hc
    simp [nameBad, hc] at h
  exact ⟨fun c hc hcs => h2 (hcs ▸ hc), fun hdd => h1 (by rw [hdd])⟩

/-- What a successful `path_join` returns. -/
theorem path_join_some (dir name p : List Char) (h : path_join dir name = some p) :
    nameBad name = false ∧ p = dir ++ '/' :: name := by
  by_cases hb : nameBad name
  · simp [path_join, hb] at h
  · refine ⟨by rwa [Bool.not_eq_true] at hb, ?_⟩
    by_cases hlen : 0 < dir.length + 1 + name.length ∧ dir.length + 1 + name.length < MAX_PATH
    · rw [path_join, if_neg hb, if_pos hlen] at h
      exact (Option.some.injEq .. ▸ h).symm
    · rw [path_join, if_neg hb, if_neg hlen] at h
      exact Option.noConfusion h

/-- C1 counterexample: two failures of the claim at concrete inputs.  First,
`UPLOAD` checks the size before the name, so `UPLOAD ../x -1` answers
`ERR invalid size`, not `ERR bad filename`, although the name contains `..`.
Second, the single-segment name `"."` passes the denylist, yet the joined
path `storage/.` resolves to the storage root itself, not to a direct child
of it. -/
theorem C1_counterexample :
    nameBad ['.','.','/','x'] = true ∧
    (handle_upload envOK rootS [] ['.','.','/','x'] (-1) []).resps =
      [.line errInvalidSize] ∧
    errInvalidSize ≠ errBadFilename ∧
    nameBad dotName = false ∧
    path_join rootS dotName = some (rootS ++ '/' :: dotName) ∧
    isDirectChild rootS (rootS ++ '/' :: dotName) = false := by decide

/-- C1 as amended: a name containing `".."`, `'/'` or `'\'` makes UPLOAD
(when its size is nonnegative — a negative size is reported first as
`ERR invalid size`), DOWNLOAD, RENAME and DELETE answer `ERR bad filename`
with the storage untouched and the stream unread; and every nonempty name
other than `"."` that passes the check joins to a path resolving to a direct
child of the storage root. -/
theorem C1_name_validation :
    (∀ (env : Env) (root : Name) (fs : FS) (name : Name) (size : Int) (stream : List Char),
      nameBad name = true → 0 ≤ size →
      handle_upload env root fs name size stream = ⟨[.line errBadFilename], fs, stream⟩) ∧
    (∀ (root : Name) (fs : FS) (name : Name), nameBad name = true →
      handle_download root fs name = [.line errBadFilename]) ∧
    (∀ (root : Name) (fs : FS) (o n : Name), nameBad o = true ∨ nameBad n = true →
      handle_rename root fs o n = ([.line errBadFilename], fs)) ∧
    (∀ (root : Name) (fs : FS) (name : Name), nameBad name = true →
      handle_delete root fs name = ([.line errBadFilename], fs)) ∧
    (∀ (root name p : List Char), name ≠ [] → name ≠ dotName →
      path_join root name = some p → isDirectChild root p = true) := by
  refine ⟨?_, ?_, ?_, ?_, ?_⟩
  · intro env root fs name size stream hbad hsz
    simp [handle_upload, path_join, hbad, not_lt.mpr hsz]
  · intro root fs name hbad
    simp [handle_download, path_join, hbad]
  · intro root fs o n hbad
    rcases hbad with hb | hb
    · simp [handle_rename, path_join, hb]
    · cases hj : path_join root o with
      | none => simp [handle_rename, hj, path_join, hb]
      | some q => simp [handle_rename, hj, path_join, hb]
  · intro root fs name hbad
    simp [handle_delete, path_join, hbad]
  · intro root name p hne hdot hjoin
    obtain ⟨hbf, rfl⟩ := path_join_some root name p hjoin
    obtain ⟨hslash, hdotdot⟩ := nameBad_false_facts name hbf
    rw [isDirectChild, resolvePath_join root name hslash hne hdot hdotdot]
    simp

/-- Witness for C1 (amended) on the denylisted names `"../x"` and `"a/b"`
and the accepted name `"f"`. -/
theorem C1_name_validation_witness :
    handle_upload envOK rootS [] ['.','.','/','x'] 0 [] =
      ⟨[.line errBadFilename], [], []⟩ ∧
    handle_delete rootS [] ['a','/','b'] = ([.line errBadFilename], ([] : FS)) ∧
    isDirectChild rootS (rootS ++ '/' :: ['f']) = true := by
  refine ⟨C1_name_validation.1 envOK rootS [] _ 0 [] (by decide) (by decide),
    C1_name_validation.2.2.2.1 rootS [] _ (by decide), ?_⟩
  exact C1_name_validation.2.2.2.2 rootS ['f'] (rootS ++ '/' :: ['f'])
    (by decide) (by decide) (by decide)

/-! C3. -/

/-- A `FILE` line never reads `ERR recv data failed`. -/
theorem fileLine_ne_errRecv (n : Name) (sz : Nat) :
    fileLine n sz ≠ .line errRecvDataFailed :=
  line_ne_of_head _ _ (by decide)

/-- An `OK <n>` line never reads `ERR recv data failed`. -/
theorem okCountLine_ne_errRecv (n : Nat) : okCountLine n ≠ .line errRecvDataFailed :=
  line_ne_of_head _ _ (by decide)

/-- An `OK <size>` line never reads `ERR recv data failed`. -/
theorem okSizeLine_ne_errRecv (n : Nat) : okSizeLine n ≠ .line errRecvDataFailed :=
  line_ne_of_head _ _ (by decide)

/-- The readdir pass of LIST never emits `ERR recv data failed`. -/
theorem errRecv_not_mem_pass2 (root : Name) (fs : FS) (names : List Name) :
    Resp.line errRecvDataFailed ∉ listPass2 root fs names := by
  induction names with
  | nil => simp [listPass2]
  | cons n rest ih =>
    simp only [listPass2]
    repeat' split
    all_goals try exact ih
    intro hmem
    rcases List.mem_cons.mp hmem with heq | hmem2
    · exact fileLine_ne_errRecv _ _ heq.symm
    · exact ih hmem2

/-- LIST never answers `ERR recv data failed`. -/
theorem errRecv_not_mem_list (root : Name) (fs : FS) :
    Resp.line errRecvDataFailed ∉ handle_list root fs := by
  simp only [handle_list]
  intro hmem
  rcases List.mem_cons.mp hmem with heq | hmem2
  · exact okCountLine_ne_errRecv _ heq.symm
  · rcases List.mem_append.mp hmem2 with h3 | h4
    · exact errRecv_not_mem_pass2 root fs _ h3
    · exact absurd (List.mem_singleton.mp h4) (by decide)

/-- DOWNLOAD never answers `ERR recv data failed`. -/
theorem errRecv_not_mem_download (root : Name) (fs : FS) (name : Name) :
    Resp.line errRecvDataFailed ∉ handle_download root fs name := by
  simp only [handle_download]
  repeat' split
  · decide
  · decide
  · decide
  · intro hmem
    rcases List.mem_cons.mp hmem with heq | hmem2
    · exact okSizeLine_ne_errRecv _ heq.symm
    · have := List.mem_singleton.mp hmem2
      exact absurd this (by simp)

/-- RENAME never answers `ERR recv data failed`. -/
theorem errRecv_not_mem_rename (root : Name) (fs : FS) (o n : Name) :
    Resp.line errRecvDataFailed ∉ (handle_rename root fs o n).1 := by
  simp only [handle_rename]
  repeat' split
  all_goals exact fun hmem => absurd (List.mem_singleton.mp hmem) (by decide)

/-- DELETE never answers `ERR recv data failed`. -/
theorem errRecv_not_mem_delete (root : Name) (fs : FS) (name : Name) :
    Resp.line errRecvDataFailed ∉ (handle_delete root fs name).1 := by
  simp only [handle_delete]
  repeat' split
  all_goals exact fun hmem => absurd (List.mem_singleton.mp hmem) (by decide)

/-- When an UPLOAD reports `ERR recv data failed`, the peer closed
mid-transfer: the handler has consumed the entire remaining input stream. -/
theorem upload_errRecv_stream (env : Env) (root : Name) (fs : FS) (name : Name)
    (size : Int) (stream : List Char)
    (h : Resp.line errRecvDataFailed ∈ (handle_upload env root fs name size stream).resps) :
    (handle_upload env root fs name size stream).stream = [] := by
  by_cases hsz : size < 0
  · simp only [handle_upload, if_pos hsz] at h
    exact absurd h (by decide)
  · cases hj : path_join root name with
    | none =>
      simp only [handle_upload, if_neg hsz, hj] at h
      exact absurd h (by decide)
    | some pp =>
      cases ho : openTrunc fs name with
      | none =>
        simp only [handle_upload, if_neg hsz, hj, ho] at h
        exact absurd h (by decide)
      | some fs1 =>
        by_cases hl : env.lockOk = false
        · simp only [handle_upload, if_neg hsz, hj, ho, if_pos hl] at h
          exact absurd h (by decide)
        · by_cases hm : env.mallocOk = false
          · simp only [handle_upload, if_neg hsz, hj, ho, if_neg hl, if_pos hm] at h
            exact absurd h (by decide)
          · by_cases hgot : (stream.take size.toNat).length = size.toNat
            · simp only [handle_upload, if_neg hsz, hj, ho, if_neg hl, if_neg hm,
                if_pos hgot] at h
              exact absurd h (by decide)
            · simp only [handle_upload, if_neg hsz, hj, ho, if_neg hl, if_neg hm,
                if_neg hgot]
              show stream.drop size.toNat = []
              have hlen : stream.length < size.toNat := by
                by_contra hge
                push_neg at hge
                exact hgot (by rw [List.length_take]; exact Nat.min_eq_left hge)
              exact List.drop_eq_nil_of_le (Nat.le_of_lt hlen)

/-- C3: one pass through the command loop from READY either stays in the
loop or leaves it, and it leaves exactly when the line read hits end of
stream or the (nonempty, chomped) line dispatches as QUIT; moreover, after
an UPLOAD whose framed transfer failed because the stream closed
mid-transfer, the remaining stream is empty, so the immediately following
loop iteration reads end of stream and closes the connection, executing no
further command and sending no further response — `OK SAVED` is never sent
for that upload and the partially written file is left in place. -/
theorem C3_command_loop (env : Env) (root : Name) (fs : FS) (stream : List Char) :
    ((stepReady env root fs stream).mode = .ready ∨
      (stepReady env root fs stream).mode = .closed) ∧
    ((stepReady env root fs stream).mode = .closed ↔
      (stream = [] ∨ ∃ raw rest, recv_line MAX_LINE stream = some (raw, rest) ∧
        parse_command (chomp raw) = .quit)) ∧
    (Resp.line errRecvDataFailed ∈ (stepReady env root fs stream).resps →
      (stepReady env root fs stream).stream = [] ∧
      (stepReady env root fs stream).mode = .ready ∧
      stepReady env root (stepReady env root fs stream).fs [] =
        ⟨[], (stepReady env root fs stream).fs, [], .closed⟩) := by
  cases hr : recv_line MAX_LINE stream with
  | none =>
    have hs : stream = [] := (recv_line_eq_none_iff _ _).mp hr
    subst hs
    refine ⟨Or.inr (by trivial), by simp [stepReady, recv_line], ?_⟩
    exact fun hmem => absurd hmem (List.not_mem_nil _)
  | some pr =>
    obtain ⟨raw, rest⟩ := pr
    have hsne : stream ≠ [] := by
      intro h0
      rw [h0] at hr
      simp [recv_line] at hr
    have hnq : parse_command (chomp raw) ≠ .quit →
        ¬(stream = [] ∨ ∃ raw' rest',
          (some (raw, rest) : Option (List Char × List Char)) = some (raw', rest') ∧
          parse_command (chomp raw') = .quit) := by
      intro hq hcon
      rcases hcon with h0 | ⟨raw', rest', hr', hq'⟩
      · exact hsne h0
      · injection hr' with hpair
        injection hpair with h1 h2
        subst h1
        exact hq hq'
    have hs' : stepReady env root fs stream = dispatchLine env root fs (chomp raw) rest := by
      simp [stepReady, hr]
    rw [hs']
    by_cases hline : chomp raw = []
    · simp only [dispatchLine, if_pos hline]
      refine ⟨Or.inl (by trivial), iff_of_false (by simp) ?_, ?_⟩
      · apply hnq
        rw [hline]
        decide
      · exact fun hmem => absurd hmem (List.not_mem_nil _)
    · cases hp : parse_command (chomp raw) with
      | list =>
        simp only [dispatchLine, if_neg hline, hp]
        exact ⟨Or.inl (by trivial), iff_of_false (by simp) (hnq (by simp [hp])),
          fun hmem => absurd hmem (errRecv_not_mem_list root fs)⟩
      | upload n sz =>
        simp only [dispatchLine, if_neg hline, hp]
        exact ⟨Or.inl (by trivial), iff_of_false (by simp) (hnq (by simp [hp])),
          fun hmem => ⟨upload_errRecv_stream env root fs n sz rest hmem,
            by trivial, by trivial⟩⟩
      | download n =>
        simp only [dispatchLine, if_neg hline, hp]
        exact ⟨Or.inl (by trivial), iff_of_false (by simp) (hnq (by simp [hp])),
          fun hmem => absurd hmem (errRecv_not_mem_download root fs n)⟩
      | rename o n =>
        simp only [dispatchLine, if_neg hline, hp]
        exact ⟨Or.inl (by trivial), iff_of_false (by simp) (hnq (by simp [hp])),
          fun hmem => absurd hmem (errRecv_not_mem_rename root fs o n)⟩
      | delete n =>
        simp only [dispatchLine, if_neg hline, hp]
        exact ⟨Or.inl (by trivial), iff_of_false (by simp) (hnq (by simp [hp])),
          fun hmem => absurd hmem (errRecv_not_mem_delete root fs n)⟩
      | quit =>
        simp only [dispatchLine, if_neg hline, hp]
        exact ⟨Or.inr (by trivial), iff_of_true (by trivial) (Or.inr ⟨raw, rest, rfl, hp⟩),
          fun hmem => absurd (List.mem_singleton.mp hmem) (by decide)⟩
      | unknown =>
        simp only [dispatchLine, if_neg hline, hp]
        exact ⟨Or.inl (by trivial), iff_of_false (by simp) (hnq (by simp [hp])),
          fun hmem => absurd (List.mem_singleton.mp hmem) (by decide)⟩

/-- Witness for C3 at the concrete stream `"UPLOAD f 5\nabc"`: the transfer
fails mid-stream, the stream is left empty, and the next iteration closes
the connection with no further response. -/
theorem C3_command_loop_witness :
    (stepReady envOK rootS [] c3stream).stream = [] ∧
    (stepReady envOK rootS [] c3stream).mode = .ready ∧
    stepReady envOK rootS (stepReady envOK rootS [] c3stream).fs [] =
      ⟨[], (stepReady envOK rootS [] c3stream).fs, [], .closed⟩ :=
  (C3_command_loop envOK rootS [] c3stream).2.2 (by decide)

/-- Witness for C6 at a successful concrete upload of 3 of 5 streamed bytes
over the pre-existing content `"OLD"`. -/
theorem C6_truncate_on_open_witness :
    ∃ c, readFS (handle_upload envOK rootS [⟨['f'], true, ['O','L','D']⟩] ['f'] 3
        ['a','b','c','d','e']).fs ['f'] = some c ∧
      c <+: (['a','b','c','d','e'] : List Char).take (Int.toNat 3) ∧
      (Resp.line okSaved ∈ (handle_upload envOK rootS [⟨['f'], true, ['O','L','D']⟩] ['f'] 3
          ['a','b','c','d','e']).resps →
        c = (['a','b','c','d','e'] : List Char).take (Int.toNat 3) ∧
          c.length = Int.toNat 3) :=
  C6_truncate_on_open envOK rootS [⟨['f'], true, ['O','L','D']⟩] ['f'] 3
    ['a','b','c','d','e'] (rootS ++ '/' :: ['f']) (by decide) (by decide) (by decide)

/-! C2. -/

/-- Where each kind of file operation sits inside an upload program. -/
theorem uploadProg_get (c : List Bytes) (pc : Nat) :
    ((uploadProg c)[pc]? = some .uopen → pc = 0) ∧
    ((uploadProg c)[pc]? = some .ulock → pc = 1) ∧
    (∀ bs, (uploadProg c)[pc]? = some (.uwrite bs) → 2 ≤ pc ∧ pc < c.length + 2) ∧
    ((uploadProg c)[pc]? = some .uunlock → pc = c.length + 2) ∧
    ((uploadProg c)[pc]? = none → c.length + 3 ≤ pc) := by
  match pc with
  | 0 => simp [uploadProg]
  | 1 => simp [uploadProg]
  | n + 2 =>
    have he : (uploadProg c)[n + 2]? = (c.map UAct.uwrite ++ [UAct.uunlock])[n]? := by
      simp [uploadProg]
    rw [he, List.getElem?_append]
    by_cases h : n < (c.map UAct.uwrite).length
    · rw [if_pos h, List.getElem?_map]
      rw [List.length_map] at h
      rw [List.getElem?_eq_getElem h]
      refine ⟨?_, ?_, ?_, ?_, ?_⟩
      · intro hx
        simp at hx
      · intro hx
        simp at hx
      · intro bs hx
        omega
      · intro hx
        simp at hx
      · intro hx
        simp at hx
    · rw [if_neg h, List.length_map]
      rw [List.length_map] at h
      by_cases h2 : n = c.length
      · subst h2
        rw [Nat.sub_self]
        refine ⟨?_, ?_, ?_, ?_, ?_⟩
        · intro hx
          simp at hx
        · intro hx
          simp at hx
        · intro bs hx
          simp at hx
        · intro hx
          omega
        · intro hx
          simp at hx
      · obtain ⟨m, hm⟩ : ∃ m, n - c.length = m + 1 := ⟨n - c.length - 1, by omega⟩
        rw [hm]
        refine ⟨?_, ?_, ?_, ?_, ?_⟩
        · intro hx
          simp at hx
        · intro hx
          simp at hx
        · intro bs hx
          simp at hx
        · intro hx
          simp at hx
        · intro hx
          omega

/-- `inCrit` unfolded to its arithmetic content. -/
theorem inCrit_true_iff (c : List Bytes) (pc : Nat) :
    inCrit c pc = true ↔ 2 ≤ pc ∧ pc < c.length + 3 := by
  simp [inCrit]

/-- The lock invariant holds initially. -/
theorem upInv_init (cA cB : List Bytes) (f0 : Bytes) : upInv cA cB (upInit f0) := by
  refine ⟨?_, ?_, ?_, ?_⟩ <;> intro h <;> simp [upInit, inCrit] at h

/-- The lock invariant rules out overlapping critical sections. -/
theorem not_bothCrit_of_inv (cA cB : List Bytes) (s : UpSys) (h : upInv cA cB s) :
    bothCrit cA cB s = false := by
  cases hA : inCrit cA s.pcA with
  | false => simp [bothCrit, hA]
  | true =>
    cases hB : inCrit cB s.pcB with
    | false => simp [bothCrit, hA, hB]
    | true =>
      have h1 := h.1 hA
      have h2 := h.2.1 hB
      rw [h1] at h2
      exact absurd h2 (by simp)

/-- Every scheduler step preserves the lock invariant. -/
theorem upInv_step (cA cB : List Bytes) (s : UpSys) (t : Bool) (h : upInv cA cB s) :
    upInv cA cB (upStep cA cB s t) := by
  obtain ⟨h1, h2, h3, h4⟩ := h
  cases t with
  | false =>
    cases hact : (uploadProg cA)[s.pcA]? with
    | none =>
      simp only [upStep, hact]
      exact ⟨h1, h2, h3, h4⟩
    | some a =>
      cases a with
      | uopen =>
        have hpc : s.pcA = 0 := (uploadProg_get cA s.pcA).1 hact
        simp only [upStep, hact, upInv]
        refine ⟨?_, h2, ?_, h4⟩
        · intro hc
          rw [inCrit_true_iff] at hc
          exact absurd hc (by omega)
        · intro hh
          have hcA := h3 hh
          rw [inCrit_true_iff] at hcA
          exact absurd hcA (by omega)
      | ulock =>
        have hpc : s.pcA = 1 := (uploadProg_get cA s.pcA).2.1 hact
        simp only [upStep, hact, upInv]
        by_cases hnone : s.holder = none
        · simp only [if_pos hnone]
          refine ⟨fun _ => trivial, ?_, ?_, ?_⟩
          · intro hcB
            rw [h2 hcB] at hnone
            exact absurd hnone (by simp)
          · intro _
            rw [inCrit_true_iff]
            omega
          · intro hh
            exact absurd hh (by simp)
        · simp only [if_neg hnone]
          exact ⟨h1, h2, h3, h4⟩
      | uwrite bs =>
        obtain ⟨hlo, hhi⟩ := (uploadProg_get cA s.pcA).2.2.1 bs hact
        have hcrit : inCrit cA s.pcA = true := (inCrit_true_iff _ _).mpr (by omega)
        have hold := h1 hcrit
        simp only [upStep, hact, upInv]
        refine ⟨fun _ => hold, h2, ?_, h4⟩
        intro _
        rw [inCrit_true_iff]
        omega
      | uunlock =>
        have hpc : s.pcA = cA.length + 2 := (uploadProg_get cA s.pcA).2.2.2.1 hact
        have hcrit : inCrit cA s.pcA = true := (inCrit_true_iff _ _).mpr (by omega)
        have hold := h1 hcrit
        simp only [upStep, hact, upInv, if_pos hold]
        refine ⟨?_, ?_, ?_, ?_⟩
        · intro hc
          rw [inCrit_true_iff] at hc
          exact absurd hc (by omega)
        · intro hcB
          have hcon := h2 hcB
          rw [hold] at hcon
          exact absurd hcon (by simp)
        · intro hh
          exact absurd hh (by simp)
        · intro hh
          exact absurd hh (by simp)
  | true =>
    cases hact : (uploadProg cB)[s.pcB]? with
    | none =>
      simp only [upStep, hact]
      exact ⟨h1, h2, h3, h4⟩
    | some a =>
      cases a with
      | uopen =>
        have hpc : s.pcB = 0 := (uploadProg_get cB s.pcB).1 hact
        simp only [upStep, hact, upInv]
        refine ⟨h1, ?_, h3, ?_⟩
        · intro hc
          rw [inCrit_true_iff] at hc
          exact absurd hc (by omega)
        · intro hh
          have hcB := h4 hh
          rw [inCrit_true_iff] at hcB
          exact absurd hcB (by omega)
      | ulock =>
        have hpc : s.pcB = 1 := (uploadProg_get cB s.pcB).2.1 hact
        simp only [upStep, hact, upInv]
        by_cases hnone : s.holder = none
        · simp only [if_pos hnone]
          refine ⟨?_, fun _ => trivial, ?_, ?_⟩
          · intro hcA
            rw [h1 hcA] at hnone
            exact absurd hnone (by simp)
          · intro hh
            exact absurd hh (by simp)
          · intro _
            rw [inCrit_true_iff]
            omega
        · simp only [if_neg hnone]
          exact ⟨h1, h2, h3, h4⟩
      | uwrite bs =>
        obtain ⟨hlo, hhi⟩ := (uploadProg_get cB s.pcB).2.2.1 bs hact
        have hcrit : inCrit cB s.pcB = true := (inCrit_true_iff _ _).mpr (by omega)
        have hold := h2 hcrit
        simp only [upStep, hact, upInv]
        refine ⟨h1, fun _ => hold, h3, ?_⟩
        intro _
        rw [inCrit_true_iff]
        omega
      | uunlock =>
        have hpc : s.pcB = cB.length + 2 := (uploadProg_get cB s.pcB).2.2.2.1 hact
        have hcrit : inCrit cB s.pcB = true := (inCrit_true_iff _ _).mpr (by omega)
        have hold := h2 hcrit
        simp only [upStep, hact, upInv, if_pos hold]
        refine ⟨?_, ?_, ?_, ?_⟩
        · intro hcA
          have hcon := h1 hcA
          rw [hold] at hcon
          exact absurd hcon (by simp)
        · intro hc
          rw [inCrit_true_iff] at hc
          exact absurd hc (by omega)
        · intro hh
          exact absurd hh (by simp)
        · intro hh
          exact absurd hh (by simp)

/-- Any run from an invariant state passes the exclusion check. -/
theorem exclusionOk_of_inv (cA cB : List Bytes) (sched : List Bool) (s : UpSys)
    (h : upInv cA cB s) : exclusionOk cA cB s sched = true := by
  induction sched generalizing s with
  | nil => simp [exclusionOk, not_bothCrit_of_inv cA cB s h]
  | cons t ts ih =>
    simp [exclusionOk, not_bothCrit_of_inv cA cB s h,
      ih (upStep cA cB s t) (upInv_step cA cB s t h)]

/-- C2 counterexample: an interleaving of the uploads `"AAAA"` (two 2-byte
chunks) and `"B"` in which the lock discipline is respected (the exclusion
check passes), both uploads run to completion, and yet the final file equals
neither payload: the second upload's `open(O_TRUNC)` truncated the file
before blocking on the lock, so the file ends as `B`, NUL, `A`, `A` — a
byte-wise mixture. -/
theorem C2_counterexample :
    exclusionOk cA0 cB0 (upInit []) sched0 = true ∧
    upDone cA0 cB0 (upRun cA0 cB0 (upInit []) sched0) = true ∧
    (upRun cA0 cB0 (upInit []) sched0).file ≠ cA0.flatten ∧
    (upRun cA0 cB0 (upInit []) sched0).file ≠ cB0.flatten := by decide

/-- C2 as amended: for any two concurrent UPLOADs of the same file, under
every schedule the second acquires the exclusive write lock only after the
first releases it (the critical sections never overlap, starting from any
initial file content); but because each handler opens with `O_TRUNC` before
acquiring the lock, there is a schedule under which both uploads complete
and the final on-disk content is a byte-wise mixture equal to neither
payload. -/
theorem C2_upload_lock_serialization :
    (∀ (cA cB : List Bytes) (f0 : Bytes) (sched : List Bool),
      exclusionOk cA cB (upInit f0) sched = true) ∧
    (∃ sched : List Bool,
      upDone cA0 cB0 (upRun cA0 cB0 (upInit []) sched) = true ∧
      (upRun cA0 cB0 (upInit []) sched).file ≠ cA0.flatten ∧
      (upRun cA0 cB0 (upInit []) sched).file ≠ cB0.flatten) := by
  constructor
  · intro cA cB f0 sched
    exact exclusionOk_of_inv cA cB sched (upInit f0) (upInv_init cA cB f0)
  · exact ⟨sched0, by decide⟩

end MiniCloud





